import Mathlib

/-!
Shallow embedding of the Koch-snowflake generator in
`src/Paralell-snowflakes/src-tauri/src/lib.rs` (the `generate_snowflake`
Tauri command), and proofs of the specification claims about it.

Modelling choices:
* Rust `f64` arithmetic is modelled exactly over `ℝ` (the algorithm is pure
  arithmetic on coordinates; `√3` is `Real.sqrt 3`, `PI` is `Real.pi`).
* `Vec<Point>` is `List Point`; `points.windows(2)` is `points.zip points.tail`
  (both enumerate the consecutive pairs in order, and are empty when the list
  has fewer than two elements).
* The Rust `Result<Vec<Point>, String>` is `Except String (List Point)`.
* `u32 iterations` is `Nat` (the claims quantify over all non-negative counts);
  the `for _ in 0..iterations` loop is `Nat` iteration of the loop body.
* The parallel branch uses rayon `par_iter().flat_map(..).collect::<Vec<_>>()`,
  whose documented semantics is deterministic and order-preserving: the
  collected vector lists each segment's run in original segment index order.
  Its observable value is therefore the ordered `flatMap` written below; the
  closure body it applies is the verbatim duplicate (lib.rs lines 42-59) of
  the sequential closure (lib.rs lines 66-83), so both branches are embedded
  as `flatMap` of that shared closure body.
-/

open Real

/-- `struct Point { x: f64, y: f64 }` (lib.rs lines 8-12), coordinates
modelled over `ℝ`. -/
@[ext]
structure Point where
  x : ℝ
  y : ℝ

noncomputable section

/-- The closure body applied to one segment `(p1, p2)` — identical in the
parallel branch (lib.rs lines 42-59) and the sequential branch (lib.rs lines
66-83): it emits the four points `[p1, p_a, p_b, p_c]`. -/
def subdivideSegment (p1 p2 : Point) : List Point :=
  let dx := p2.x - p1.x
  let dy := p2.y - p1.y
  let p_a : Point := ⟨p1.x + dx / 3, p1.y + dy / 3⟩
  let p_b : Point :=
    ⟨p1.x + dx / 2 - dy * (Real.sqrt 3 / 6),
     p1.y + dy / 2 + dx * (Real.sqrt 3 / 6)⟩
  let p_c : Point := ⟨p1.x + 2 * dx / 3, p1.y + 2 * dy / 3⟩
  [p1, p_a, p_b, p_c]

/-- The parallel branch (lib.rs lines 40-61):
`segments.par_iter().flat_map(closure).collect::<Vec<Point>>()`.
Rayon's `collect` into a `Vec` preserves the original index order of
`par_iter`, so the collected value is the ordered `flatMap` of the closure. -/
def subdivideAllPar (segments : List (Point × Point)) : List Point :=
  segments.flatMap fun s => subdivideSegment s.1 s.2

/-- The sequential branch (lib.rs lines 64-85):
`segments.iter().flat_map(closure).collect::<Vec<Point>>()`. -/
def subdivideAllSeq (segments : List (Point × Point)) : List Point :=
  segments.flatMap fun s => subdivideSegment s.1 s.2

/-- One iteration of the `for` loop body (lib.rs lines 35-92): build the
segment list from consecutive pairs, subdivide every segment with the branch
selected by `parallel`, then push `p2` of the last segment (when a last
segment exists) to close the curve. -/
def stepCurve (parallel : Bool) (points : List Point) : List Point :=
  let segments := points.zip points.tail
  let new_points :=
    if parallel then subdivideAllPar segments else subdivideAllSeq segments
  match segments.getLast? with
  | some last_segment => new_points ++ [last_segment.2]
  | none => new_points

/-- The seed vector (lib.rs lines 18-29): `(0,1)`, `(cos(2π/3), sin(2π/3))`,
`(cos(4π/3), sin(4π/3))`, and `(0,1)` again to close the shape. -/
def seedCurve : List Point :=
  [⟨0, 1⟩,
   ⟨Real.cos (2 * π / 3), Real.sin (2 * π / 3)⟩,
   ⟨Real.cos (4 * π / 3), Real.sin (4 * π / 3)⟩,
   ⟨0, 1⟩]

/-- The point list produced after running the loop body `iterations` times
starting from the seed (the value held by `points` at lib.rs line 95). -/
def snowflakeList (iterations : Nat) (parallel : Bool) : List Point :=
  (stepCurve parallel)^[iterations] seedCurve

/-- `generate_snowflake` (lib.rs lines 17-96): seed the curve, return it
directly when `iterations == 0`, otherwise run the loop `iterations` times;
every path returns `Ok`. -/
def generate_snowflake (iterations : Nat) (parallel : Bool) :
    Except String (List Point) :=
  let points := seedCurve
  if iterations = 0 then
    Except.ok points
  else
    Except.ok ((stepCurve parallel)^[iterations] points)

end

/-! ### Helper lemmas -/

theorem subdivideAllPar_eq_seq : subdivideAllPar = subdivideAllSeq := rfl

theorem stepCurve_true_eq_false : stepCurve true = stepCurve false := by
  funext points
  simp [stepCurve, subdivideAllPar, subdivideAllSeq]

theorem subdivideAllSeq_cons (s : Point × Point) (t : List (Point × Point)) :
    subdivideAllSeq (s :: t) = subdivideSegment s.1 s.2 ++ subdivideAllSeq t :=
  rfl

theorem length_subdivideAllSeq (segments : List (Point × Point)) :
    (subdivideAllSeq segments).length = 4 * segments.length := by
  induction segments with
  | nil => rfl
  | cons s t ih =>
    have h4 : (subdivideSegment s.1 s.2).length = 4 := rfl
    rw [subdivideAllSeq_cons, List.length_append, ih, h4, List.length_cons]
    omega

theorem generate_snowflake_eq_ok (iterations : Nat) (parallel : Bool) :
    generate_snowflake iterations parallel =
      Except.ok (snowflakeList iterations parallel) := by
  unfold generate_snowflake snowflakeList
  split <;> simp_all

theorem exists_cons_cons_of_two_le {l : List Point} (h : 2 ≤ l.length) :
    ∃ x y rest, l = x :: y :: rest := by
  match l, h with
  | x :: y :: rest, _ => exact ⟨x, y, rest, rfl⟩

theorem zip_tail_getLast_isSome (x y : Point) (rest : List Point) :
    ∃ s, ((x :: y :: rest).zip (y :: rest)).getLast? = some s := by
  cases e : ((x :: y :: rest).zip (y :: rest)).getLast? with
  | none =>
    have h1 : (x :: y :: rest).zip (y :: rest) =
        (x, y) :: ((y :: rest).zip rest) := rfl
    rw [h1] at e
    exact absurd (List.getLast?_eq_none_iff.mp e) (List.cons_ne_nil _ _)
  | some s => exact ⟨s, rfl⟩

theorem stepCurve_cons (parallel : Bool) (x y : Point) (rest : List Point)
    (s : Point × Point)
    (hs : ((x :: y :: rest).zip (y :: rest)).getLast? = some s) :
    stepCurve parallel (x :: y :: rest) =
      subdivideAllSeq ((x :: y :: rest).zip (y :: rest)) ++ [s.2] := by
  simp only [stepCurve, List.tail_cons, hs, subdivideAllPar_eq_seq]
  cases parallel <;> simp

theorem stepCurve_length (parallel : Bool) (c : List Point)
    (h : 2 ≤ c.length) :
    (stepCurve parallel c).length = 4 * (c.length - 1) + 1 := by
  obtain ⟨x, y, rest, rfl⟩ := exists_cons_cons_of_two_le h
  obtain ⟨s, hs⟩ := zip_tail_getLast_isSome x y rest
  rw [stepCurve_cons parallel x y rest s hs, List.length_append,
    length_subdivideAllSeq, List.length_zip]
  simp only [List.length_cons, List.length_nil]
  omega

theorem snowflakeList_length (n : Nat) (parallel : Bool) :
    (snowflakeList n parallel).length = 3 * 4 ^ n + 1 := by
  induction n with
  | zero => simp [snowflakeList, seedCurve]
  | succ k ih =>
    have hstep : snowflakeList (k + 1) parallel =
        stepCurve parallel (snowflakeList k parallel) :=
      Function.iterate_succ_apply' (stepCurve parallel) k seedCurve
    have h2 : 2 ≤ (snowflakeList k parallel).length := by
      rw [ih]
      have : 1 ≤ 4 ^ k := Nat.one_le_pow k 4 (by omega)
      omega
    rw [hstep, stepCurve_length parallel _ h2, ih, pow_succ]
    have : 1 ≤ 4 ^ k := Nat.one_le_pow k 4 (by omega)
    omega

theorem stepCurve_head? (parallel : Bool) (x y : Point) (rest : List Point) :
    (stepCurve parallel (x :: y :: rest)).head? = some x := by
  obtain ⟨s, hs⟩ := zip_tail_getLast_isSome x y rest
  rw [stepCurve_cons parallel x y rest s hs]
  have h1 : (x :: y :: rest).zip (y :: rest) =
      (x, y) :: ((y :: rest).zip rest) := rfl
  rw [h1, subdivideAllSeq_cons]
  rfl

theorem zip_tail_getLast_snd :
    ∀ (x y : Point) (l : List Point),
      (((x :: y :: l).zip (y :: l)).getLast?).map Prod.snd =
        (x :: y :: l).getLast? := by
  intro x y l
  induction l generalizing x y with
  | nil => simp
  | cons z t ih =>
    have hz : (x :: y :: z :: t).zip (y :: z :: t) =
        (x, y) :: ((y :: z :: t).zip (z :: t)) := rfl
    have hnext : (y :: z :: t).zip (z :: t) = (y, z) :: ((z :: t).zip t) := rfl
    rw [hz, hnext, List.getLast?_cons_cons, List.getLast?_cons_cons, ← hnext]
    exact ih y z

theorem stepCurve_getLast? (parallel : Bool) (c : List Point)
    (h : 2 ≤ c.length) :
    (stepCurve parallel c).getLast? = c.getLast? := by
  obtain ⟨x, y, rest, rfl⟩ := exists_cons_cons_of_two_le h
  obtain ⟨s, hs⟩ := zip_tail_getLast_isSome x y rest
  have hsnd : some s.2 = (x :: y :: rest).getLast? := by
    have h2 := zip_tail_getLast_snd x y rest
    rw [hs] at h2
    simpa using h2
  rw [stepCurve_cons parallel x y rest s hs, List.getLast?_append]
  have h3 : ([s.2] : List Point).getLast? = some s.2 := rfl
  rw [h3]
  simpa using hsnd

theorem snowflakeList_head_last (n : Nat) (parallel : Bool) :
    (snowflakeList n parallel).head? = some ⟨0, 1⟩ ∧
      (snowflakeList n parallel).getLast? = some ⟨0, 1⟩ := by
  induction n with
  | zero =>
    constructor <;> simp [snowflakeList, seedCurve]
  | succ k ih =>
    have hstep : snowflakeList (k + 1) parallel =
        stepCurve parallel (snowflakeList k parallel) :=
      Function.iterate_succ_apply' (stepCurve parallel) k seedCurve
    have h2 : 2 ≤ (snowflakeList k parallel).length := by
      rw [snowflakeList_length]
      have : 1 ≤ 4 ^ k := Nat.one_le_pow k 4 (by omega)
      omega
    obtain ⟨x, y, rest, hxy⟩ := exists_cons_cons_of_two_le h2
    have hx : x = ⟨0, 1⟩ := by
      have := ih.1
      rw [hxy] at this
      simpa using this
    constructor
    · rw [hstep, hxy, stepCurve_head?, hx]
    · rw [hstep, stepCurve_getLast? parallel _ h2, ih.2]

theorem subdivideAllSeq_getElem_mul :
    ∀ (segs : List (Point × Point)) (i : Nat),
      (subdivideAllSeq segs)[4 * i]? = (segs[i]?).map Prod.fst := by
  intro segs
  induction segs with
  | nil => intro i; simp [subdivideAllSeq]
  | cons s t ih =>
    intro i
    cases i with
    | zero =>
      rw [subdivideAllSeq_cons]
      simp [subdivideSegment]
    | succ j =>
      rw [subdivideAllSeq_cons]
      have h4 : (subdivideSegment s.1 s.2).length = 4 := rfl
      have hle : (subdivideSegment s.1 s.2).length ≤ 4 * (j + 1) := by
        rw [h4]; omega
      rw [List.getElem?_append_right hle, h4,
        show 4 * (j + 1) - 4 = 4 * j by omega, ih j, List.getElem?_cons_succ]

theorem zip_tail_getElem_fst :
    ∀ (cur : List Point) (i : Nat), i + 1 < cur.length →
      ((cur.zip cur.tail)[i]?).map Prod.fst = cur[i]? := by
  intro cur
  induction cur with
  | nil => intro i h; simp at h
  | cons x c2 ih =>
    intro i h
    cases c2 with
    | nil => simp at h
    | cons y rest =>
      cases i with
      | zero =>
        have hz : (x :: y :: rest).zip (x :: y :: rest).tail =
            (x, y) :: ((y :: rest).zip rest) := rfl
        rw [hz]
        simp
      | succ j =>
        have h2 : j + 1 < (y :: rest).length := by
          simp only [List.length_cons] at h ⊢; omega
        have hz : (x :: y :: rest).zip (x :: y :: rest).tail =
            (x, y) :: ((y :: rest).zip rest) := rfl
        rw [hz, List.getElem?_cons_succ, List.getElem?_cons_succ]
        exact ih j h2

/-! ### Claim theorems -/

/-- C1: for every non-negative iteration count `n`, the parallel and the
sequential strategy return exactly the same result, hence point sequences of
the same length, point-by-point equal, in the same order. -/
theorem strategy_equivalence (n : Nat) :
    generate_snowflake n true = generate_snowflake n false := by
  simp only [generate_snowflake, stepCurve_true_eq_false]

/-- C2: growth law — each loop iteration turns an `N`-point curve into a
`4·(N−1)+1`-point curve, starting from `N₀ = 4`; in particular
`generate(1, false)` returns exactly 13 points. -/
theorem growth_law (n : Nat) (parallel : Bool) :
    (snowflakeList (n + 1) parallel).length =
      4 * ((snowflakeList n parallel).length - 1) + 1 ∧
    (snowflakeList 0 parallel).length = 4 ∧
    generate_snowflake 1 false = Except.ok (snowflakeList 1 false) ∧
    (snowflakeList 1 false).length = 13 := by
  refine ⟨?_, ?_, generate_snowflake_eq_ok 1 false, ?_⟩
  · rw [snowflakeList_length, snowflakeList_length, pow_succ]
    have h1 : 1 ≤ 4 ^ n := Nat.one_le_pow n 4 (by omega)
    omega
  · simp [snowflakeList, seedCurve]
  · rw [snowflakeList_length]; norm_num

/-- C4: zero iterations returns exactly the 4-point seed triangle
`(0,1)`, `(cos 120°, sin 120°)`, `(cos 240°, sin 240°)`, `(0,1)` (angles in
radians `2π/3` and `4π/3`), unchanged, for either strategy flag. -/
theorem zero_iteration_identity (parallel : Bool) :
    generate_snowflake 0 parallel =
      Except.ok
        [⟨0, 1⟩,
         ⟨Real.cos (2 * π / 3), Real.sin (2 * π / 3)⟩,
         ⟨Real.cos (4 * π / 3), Real.sin (4 * π / 3)⟩,
         ⟨0, 1⟩] := rfl

/-- C6: closure invariant — for every iteration count and both strategies the
result is a non-empty list whose first point equals its last point. -/
theorem closure_invariant (n : Nat) (parallel : Bool) :
    ∃ pts, generate_snowflake n parallel = Except.ok pts ∧
      pts ≠ [] ∧ pts.head? = pts.getLast? := by
  refine ⟨snowflakeList n parallel, generate_snowflake_eq_ok n parallel,
    ?_, ?_⟩
  · intro hnil
    have h := snowflakeList_length n parallel
    rw [hnil] at h
    simp at h
  · rw [(snowflakeList_head_last n parallel).1,
      (snowflakeList_head_last n parallel).2]

/-- C7: degenerate-segment totality — subdividing a zero-length segment is
well defined and produces four coincident points, all equal to `p1`. -/
theorem degenerate_segment_coincident (p : Point) :
    subdivideSegment p p = [p, p, p, p] := by
  have hx : p.x + (p.x - p.x) / 3 = p.x := by ring
  have hy : p.y + (p.y - p.y) / 3 = p.y := by ring
  have hbx : p.x + (p.x - p.x) / 2 - (p.y - p.y) * (Real.sqrt 3 / 6) = p.x :=
    by ring
  have hby : p.y + (p.y - p.y) / 2 + (p.x - p.x) * (Real.sqrt 3 / 6) = p.y :=
    by ring
  have hcx : p.x + 2 * (p.x - p.x) / 3 = p.x := by ring
  have hcy : p.y + 2 * (p.y - p.y) / 3 = p.y := by ring
  simp only [subdivideSegment, hx, hy, hbx, hby, hcx, hcy]

/-- C8: no fallible paths — for every iteration count and both strategies,
`generate_snowflake` returns `Ok` with the complete iterated curve and never
returns the error branch. -/
theorem no_fallible_paths (iterations : Nat) (parallel : Bool) :
    generate_snowflake iterations parallel =
      Except.ok (snowflakeList iterations parallel) ∧
    ∀ e : String, generate_snowflake iterations parallel ≠ Except.error e := by
  refine ⟨generate_snowflake_eq_ok iterations parallel, ?_⟩
  intro e he
  rw [generate_snowflake_eq_ok] at he
  exact Except.noConfusion he

/-- C9: the first point of the result is exactly `(0, 1)` for every iteration
count and both strategies — the seed's top vertex is carried forward. -/
theorem first_point_pinned (n : Nat) (parallel : Bool) :
    ∃ pts, generate_snowflake n parallel = Except.ok pts ∧
      pts.head? = some ⟨0, 1⟩ :=
  ⟨snowflakeList n parallel, generate_snowflake_eq_ok n parallel,
    (snowflakeList_head_last n parallel).1⟩

/-- C3: per-segment subdivision emits the ordered run `[p1, A, B, C]` with
`A` one third along, `B` the perpendicular-displaced apex and `C` two thirds
along; for `p1=(0,0)`, `p2=(3,0)` it yields `A=(1,0)`, `B=(3/2, √3/2)`,
`C=(2,0)`, with the apex at positive y. -/
theorem segment_subdivision_correct :
    (∀ p1 p2 : Point,
      subdivideSegment p1 p2 =
        [p1,
         ⟨p1.x + (p2.x - p1.x) / 3, p1.y + (p2.y - p1.y) / 3⟩,
         ⟨p1.x + (p2.x - p1.x) / 2 - (p2.y - p1.y) * (Real.sqrt 3 / 6),
          p1.y + (p2.y - p1.y) / 2 + (p2.x - p1.x) * (Real.sqrt 3 / 6)⟩,
         ⟨p1.x + 2 * (p2.x - p1.x) / 3, p1.y + 2 * (p2.y - p1.y) / 3⟩]) ∧
    subdivideSegment ⟨0, 0⟩ ⟨3, 0⟩ =
      [⟨0, 0⟩, ⟨1, 0⟩, ⟨3 / 2, Real.sqrt 3 / 2⟩, ⟨2, 0⟩] ∧
    0 < Real.sqrt 3 / 2 := by
  refine ⟨fun p1 p2 => rfl, ?_, by positivity⟩
  simp only [subdivideSegment, List.cons.injEq, Point.mk.injEq]
  norm_num
  ring

/-- C5 counterexample: the seed's second vertex is the unit-circle point at
angle 2π/3 (that is 120°), not the claimed vertex at angle 7π/6 (210°) —
the y-coordinates are √3/2 versus −1/2. -/
theorem seed_vertex_angle_counterexample :
    seedCurve[1]? = some ⟨Real.cos (2 * π / 3), Real.sin (2 * π / 3)⟩ ∧
    Point.mk (Real.cos (2 * π / 3)) (Real.sin (2 * π / 3)) ≠
      Point.mk (Real.cos (7 * π / 6)) (Real.sin (7 * π / 6)) := by
  constructor
  · simp [seedCurve]
  · intro hEq
    have hy : Real.sin (2 * π / 3) = Real.sin (7 * π / 6) :=
      congrArg Point.y hEq
    have h1 : Real.sin (2 * π / 3) = Real.sqrt 3 / 2 := by
      rw [show (2 * π / 3 : ℝ) = π - π / 3 by ring, Real.sin_pi_sub,
        Real.sin_pi_div_three]
    have h2 : Real.sin (7 * π / 6) = -(1 / 2) := by
      rw [show (7 * π / 6 : ℝ) = π + π / 6 by ring, Real.sin_add,
        Real.sin_pi, Real.cos_pi, Real.sin_pi_div_six]
      ring
    have h3 : 0 < Real.sqrt 3 := Real.sqrt_pos.mpr (by norm_num)
    rw [h1, h2] at hy
    linarith

/-- C5 (amended): the seed is a Curve of 4 Points on the unit circle with
vertices at angles π/2, 2π/3 and 4π/3 (90°, 120°, 240°), the first vertex
repeated as the last point; the triangle is not the claimed equilateral one
at 90°, 210°, 330°. -/
theorem seed_shape_amended :
    seedCurve.length = 4 ∧
    seedCurve[0]? = some ⟨Real.cos (π / 2), Real.sin (π / 2)⟩ ∧
    seedCurve[1]? = some ⟨Real.cos (2 * π / 3), Real.sin (2 * π / 3)⟩ ∧
    seedCurve[2]? = some ⟨Real.cos (4 * π / 3), Real.sin (4 * π / 3)⟩ ∧
    seedCurve[3]? = seedCurve[0]? ∧
    ∀ p ∈ seedCurve, p.x ^ 2 + p.y ^ 2 = 1 := by
  refine ⟨rfl, ?_, ?_, ?_, ?_, ?_⟩
  · simp [seedCurve, Real.cos_pi_div_two, Real.sin_pi_div_two]
  · simp [seedCurve]
  · simp [seedCurve]
  · simp [seedCurve]
  · intro p hp
    simp only [seedCurve, List.mem_cons, List.not_mem_nil, or_false] at hp
    rcases hp with rfl | rfl | rfl | rfl
    · show (0:ℝ) ^ 2 + (1:ℝ) ^ 2 = 1
      norm_num
    · exact Real.cos_sq_add_sin_sq _
    · exact Real.cos_sq_add_sin_sq _
    · show (0:ℝ) ^ 2 + (1:ℝ) ^ 2 = 1
      norm_num

/-- C10: a loop iteration only inserts points — each old point `i < N−1`
reappears unchanged at index `4·i` of the new curve, and the old closing
point `N−1` reappears at index `4·(N−1)`. -/
theorem iteration_inserts_only (parallel : Bool) (cur : List Point)
    (h : 2 ≤ cur.length) :
    (∀ i, i < cur.length - 1 →
      (stepCurve parallel cur)[4 * i]? = cur[i]?) ∧
    (stepCurve parallel cur)[4 * (cur.length - 1)]? =
      cur[cur.length - 1]? := by
  obtain ⟨x, y, rest, rfl⟩ := exists_cons_cons_of_two_le h
  obtain ⟨s, hs⟩ := zip_tail_getLast_isSome x y rest
  have hstep := stepCurve_cons parallel x y rest s hs
  have hlen : (subdivideAllSeq ((x :: y :: rest).zip (y :: rest))).length =
      4 * ((x :: y :: rest).length - 1) := by
    rw [length_subdivideAllSeq, List.length_zip]
    simp only [List.length_cons]
    omega
  constructor
  · intro i hi
    rw [hstep]
    have hlt : 4 * i <
        (subdivideAllSeq ((x :: y :: rest).zip (y :: rest))).length := by
      rw [hlen]
      simp only [List.length_cons] at hi ⊢
      omega
    rw [List.getElem?_append_left hlt, subdivideAllSeq_getElem_mul]
    refine zip_tail_getElem_fst (x :: y :: rest) i ?_
    simp only [List.length_cons] at hi ⊢
    omega
  · rw [hstep, List.getElem?_append_right (le_of_eq hlen), hlen, Nat.sub_self]
    have hsnd : some s.2 = (x :: y :: rest).getLast? := by
      have h2 := zip_tail_getLast_snd x y rest
      rw [hs] at h2
      simpa using h2
    rw [List.getLast?_eq_getElem?] at hsnd
    rw [← hsnd]
    simp

/-- Witness for C10: the theorem applied at the seed curve with `i = 2`. -/
theorem iteration_inserts_only_witness :
    (stepCurve false seedCurve)[4 * 2]? = seedCurve[2]? ∧
    (stepCurve false seedCurve)[4 * (seedCurve.length - 1)]? =
      seedCurve[seedCurve.length - 1]? := by
  have h2 : 2 ≤ seedCurve.length := by norm_num [seedCurve]
  exact ⟨(iteration_inserts_only false seedCurve h2).1 2
      (by norm_num [seedCurve]),
    (iteration_inserts_only false seedCurve h2).2⟩

/-- Witness for C5's amended theorem: the unit-circle conjunct applied at the
seed's first point, whose membership in the seed is discharged concretely. -/
theorem seed_shape_amended_witness :
    (Point.mk (0:ℝ) 1).x ^ 2 + (Point.mk (0:ℝ) 1).y ^ 2 = 1 :=
  seed_shape_amended.2.2.2.2.2 ⟨0, 1⟩ (by simp [seedCurve])

/-- Witness for C6: the closure invariant at two iterations, sequential
strategy. -/
theorem closure_invariant_witness :
    ∃ pts, generate_snowflake 2 false = Except.ok pts ∧
      pts ≠ [] ∧ pts.head? = pts.getLast? :=
  closure_invariant 2 false

/-- Witness for C8: three iterations with the parallel strategy return `Ok`
and never the error branch. -/
theorem no_fallible_paths_witness :
    generate_snowflake 3 true = Except.ok (snowflakeList 3 true) ∧
    ∀ e : String, generate_snowflake 3 true ≠ Except.error e :=
  no_fallible_paths 3 true
